import Mathlib

/-!
Shallow embedding of the core of `src/image_border_cropper.pyw`:
the border-normalization pipeline (`trim_and_expand_border_to_content`),
the pixel-data hash (`get_image_hash`), the clipboard write
(`send_image_to_clipboard`) and the clipboard monitor loop (`main`).

Images are modelled as rectangular grids of RGBA pixels together with a
mode tag (`RGB` or `RGBA`), exactly the two PIL modes this program
produces: pixels of an `RGB`-mode image carry the fixed alpha value 255.
PIL primitives are modelled at the pixel level with the integer
arithmetic Pillow actually performs (ITU-R 601-2 luma with the
`19595/38470/7471 >> 16` fixed-point coefficients, `MULDIV255` rounding
in `paste` blending, 256-entry lookup tables in `point`).
-/

namespace ImageBorderCropper

/-- A pixel with red, green, blue and alpha channels (each 0..255 for a
valid image). -/
structure Pixel where
  r : Nat
  g : Nat
  b : Nat
  a : Nat
deriving DecidableEq

/-- The two PIL image modes that occur in the program. -/
inductive PixMode where
  | RGB
  | RGBA
deriving DecidableEq

/-- An in-memory raster image: a mode tag and a grid of pixels, stored as
a list of rows (row `y`, column `x`). -/
structure Img where
  mode : PixMode
  pixels : List (List Pixel)
deriving DecidableEq

/-- Height of an image: the number of rows. -/
def Img.height (img : Img) : Nat := img.pixels.length

/-- Width of an image: the length of the first row (all rows of a valid
image have this length). -/
def Img.width (img : Img) : Nat := (img.pixels.headD []).length

/-- The pixel read out of range; only used as a `getD` default and never
observed on valid in-range accesses. -/
def defaultPixel : Pixel := ⟨0, 0, 0, 0⟩

/-- Pixel access `img.getpixel((x, y))`. -/
def getPixel (img : Img) (x y : Nat) : Pixel :=
  (img.pixels.getD y []).getD x defaultPixel

/-- Build a `w × h` grid from a function of the coordinates. -/
def gridOfFn {α : Type} (w h : Nat) (f : Nat → Nat → α) : List (List α) :=
  (List.range h).map (fun y => (List.range w).map (fun x => f x y))

/-- A valid image: every row has length `width`, every channel of every
pixel is at most 255, and an `RGB`-mode image is stored with alpha 255 in
every pixel (PIL RGB pixels have no alpha; the model fixes it at 255). -/
def Img.Valid (img : Img) : Prop :=
  (∀ row ∈ img.pixels, row.length = img.width ∧
    ∀ p ∈ row, p.r ≤ 255 ∧ p.g ≤ 255 ∧ p.b ≤ 255 ∧ p.a ≤ 255) ∧
  (img.mode = PixMode.RGB → ∀ row ∈ img.pixels, ∀ p ∈ row, p.a = 255)

/-- An image whose every pixel has full alpha 255 (no transparency). -/
def AlphaFull (img : Img) : Prop :=
  ∀ row ∈ img.pixels, ∀ p ∈ row, p.a = 255

/-- The model of `img.convert("RGBA")`: RGB pixels gain alpha 255, which
the representation already stores, so only the mode tag changes. -/
def convertRGBA (img : Img) : Img := ⟨PixMode.RGBA, img.pixels⟩

/-- Replace a pixel's alpha by 255, keeping its color channels. -/
def rgb255 (p : Pixel) : Pixel := ⟨p.r, p.g, p.b, 255⟩

/-- The model of `img.convert("RGB")`: the alpha band is dropped (PIL does
not composite when going RGBA → RGB); the model keeps the color channels
and stores the fixed alpha 255. -/
def convertRGB (img : Img) : Img :=
  ⟨PixMode.RGB, img.pixels.map (List.map rgb255)⟩

/-- The model of `Image.new("RGBA", (w, h), color)`. -/
def imageNew (w h : Nat) (c : Pixel) : Img := ⟨PixMode.RGBA, gridOfFn w h (fun _ _ => c)⟩

/-- Absolute difference of two channel values. -/
def absdiff (m n : Nat) : Nat := max m n - min m n

/-- Per-channel absolute difference of two pixels. -/
def pixDiff (p q : Pixel) : Pixel :=
  ⟨absdiff p.r q.r, absdiff p.g q.g, absdiff p.b q.b, absdiff p.a q.a⟩

/-- The model of `ImageChops.difference(a, b)` for same-size images:
the per-pixel, per-channel absolute difference. -/
def difference (x y : Img) : Img :=
  ⟨PixMode.RGBA, gridOfFn x.width x.height
    (fun i j => pixDiff (getPixel x i j) (getPixel y i j))⟩

/-- Pillow's RGB(A) → L conversion of one pixel: the ITU-R 601-2 luma
transform in the exact fixed-point form Pillow uses,
`(19595*R + 38470*G + 7471*B) >> 16`; the alpha band is ignored. -/
def luma (p : Pixel) : Nat := (19595 * p.r + 38470 * p.g + 7471 * p.b) / 65536

/-- The model of `img.convert("L")`: the per-pixel luma grid. -/
def convertL (img : Img) : List (List Nat) :=
  img.pixels.map (List.map luma)

/-- The 256-entry lookup table `[255 if i > tolerance else 0 for i in range(256)]`. -/
def lut (tolerance : Nat) : List Nat :=
  (List.range 256).map (fun i => if tolerance < i then 255 else 0)

/-- The model of `img.point(lut)` on an L-mode image: each value indexes
the lookup table. -/
def point (g : List (List Nat)) (table : List Nat) : List (List Nat) :=
  g.map (List.map (fun v => table.getD v 0))

/-- The coordinates of the nonzero entries of one row of an L grid. -/
def nonzeroRow (y : Nat) (row : List Nat) : List (Nat × Nat) :=
  (List.range row.length).filterMap
    (fun x => if row.getD x 0 = 0 then none else some (x, y))

/-- The coordinates of all nonzero entries of an L grid, in scan order. -/
def nonzeroCoords (g : List (List Nat)) : List (Nat × Nat) :=
  ((List.range g.length).map (fun y => nonzeroRow y (g.getD y []))).flatten

/-- The model of `img.getbbox()` on an L-mode image: the bounding box
`(left, top, right, bottom)` of the nonzero pixels, right- and
bottom-exclusive, or `none` when every pixel is zero. -/
def getbbox (g : List (List Nat)) : Option (Nat × Nat × Nat × Nat) :=
  match ((nonzeroCoords g).map Prod.fst).min?, ((nonzeroCoords g).map Prod.snd).min?,
        ((nonzeroCoords g).map Prod.fst).max?, ((nonzeroCoords g).map Prod.snd).max? with
  | some l, some t, some r1, some b1 => some (l, t, r1 + 1, b1 + 1)
  | _, _, _, _ => none

/-- The model of `img.crop((l, t, r, b))` for a box inside the image. -/
def crop (img : Img) (l t r b : Nat) : Img :=
  ⟨img.mode, gridOfFn (r - l) (b - t) (fun x y => getPixel img (l + x) (t + y))⟩

/-- Pillow's `MULDIV255(a, b)` rounding helper:
`tmp = a*b + 128; ((tmp >> 8) + tmp) >> 8`, an exact-rounding `a*b/255`. -/
def mulDiv255 (x y : Nat) : Nat := ((x * y + 128) / 256 + (x * y + 128)) / 256

/-- Blend one channel during a masked paste: Pillow's
`BLEND(mask, in1, in2) = MULDIV255(in1, 255 - mask) + MULDIV255(in2, mask)`. -/
def blendCh (c1 c2 m : Nat) : Nat := mulDiv255 c1 (255 - m) + mulDiv255 c2 m

/-- Blend two pixels under a mask value, channel by channel. -/
def blendPix (p q : Pixel) (m : Nat) : Pixel :=
  ⟨blendCh p.r q.r m, blendCh p.g q.g m, blendCh p.b q.b m, blendCh p.a q.a m⟩

/-- The model of `base.paste(src, (px, py), src)` for a box inside `base`:
inside the pasted region each pixel is blended with the source pixel using
the source pixel's alpha as the mask; outside it the base is unchanged. -/
def paste (base src : Img) (px py : Nat) : Img :=
  ⟨base.mode, gridOfFn base.width base.height (fun x y =>
    if px ≤ x ∧ x < px + src.width ∧ py ≤ y ∧ y < py + src.height then
      blendPix (getPixel base x y) (getPixel src (x - px) (y - py))
        (getPixel src (x - px) (y - py)).a
    else getPixel base x y)⟩

/-- The content-box computation inlined in
`trim_and_expand_border_to_content` (source lines 177–183, the spec's
`find_content_box`): sample the background color at (0,0), build the
difference against a uniform background image, convert to L, and
threshold through the lookup table. -/
def contentMask (img : Img) (tolerance : Nat) : List (List Nat) :=
  let bg_color := getPixel img 0 0
  let bg := imageNew img.width img.height bg_color
  let diff := convertL (difference img bg)
  point diff (lut tolerance)

/-- The bounding box of the thresholded mask, completing the content-box
computation. -/
def find_content_box (img : Img) (tolerance : Nat) : Option (Nat × Nat × Nat × Nat) :=
  getbbox (contentMask img tolerance)

/-- The model of `trim_and_expand_border_to_content(img, padding, tolerance)`
(source lines 170–192): convert to RGBA, find the content box, return the
image if there is none, otherwise crop to the content, paste it with its
own alpha mask at offset `(padding, padding)` onto a fresh
background-colored canvas of size content + 2*padding, and convert the
result to RGB. -/
def trim_and_expand_border_to_content (img0 : Img) (padding tolerance : Nat) : Img :=
  let img := convertRGBA img0
  match find_content_box img tolerance with
  | none => img
  | some (l, t, r, b) =>
    let object_only := crop img l t r b
    let obj_w := object_only.width
    let obj_h := object_only.height
    let new_width := obj_w + padding * 2
    let new_height := obj_h + padding * 2
    let standardized_img := paste (imageNew new_width new_height (getPixel img 0 0))
      object_only padding padding
    convertRGB standardized_img

/-- The color data of an image with alpha and mode erased: for each pixel
the (r, g, b) triple. -/
def rgbData (img : Img) : List (List (Nat × Nat × Nat)) :=
  img.pixels.map (List.map (fun p => (p.r, p.g, p.b)))

/-- The model of `img.tobytes()` on an RGB-mode image: the pixel color
bytes, row-major, three bytes per pixel. -/
def toBytes (img : Img) : List Nat :=
  (img.pixels.map (fun row => (row.map (fun p => [p.r, p.g, p.b])).flatten)).flatten

/-- The digest underlying `hashlib.md5(...).hexdigest()`. The MD5
compression function itself is external library code (hashlib); it is
modelled by a concrete deterministic 128-bit digest of the byte
sequence, which is sound for the claims at issue: they depend only on
the digest being a pure function of the input bytes. -/
def md5Digest (bs : List Nat) : Nat :=
  bs.foldl (fun h v => (h * 1099511628211 + v + 1) % (2 ^ 128)) 0

/-- The model of `get_image_hash(img)` (source lines 195–197): the digest
of the pixel bytes of the RGB conversion of the image. -/
def get_image_hash (img : Img) : Nat := md5Digest (toBytes (convertRGB img))

/-- An image consisting of a single `w × h` foreground rectangle centered
with margin `m` of background on every side (the shape quantified over in
the spec's rectangle property). -/
def rectImage (w h m : Nat) (fg bgc : Pixel) : Img :=
  ⟨PixMode.RGBA, gridOfFn (w + 2 * m) (h + 2 * m)
    (fun x y => if m ≤ x ∧ x < m + w ∧ m ≤ y ∧ y < m + h then fg else bgc)⟩

/-- What the clipboard holds at one poll of the monitor loop:
a raster image, a text string, or some other content. -/
inductive Clip where
  | image (i : Img)
  | text (s : String)
  | other
deriving DecidableEq

/-- Where (if anywhere) the current monitor-loop iteration raises an
exception: at the clipboard read, at either hash computation, inside the
border normalization, or inside the clipboard write; `ok` means the
iteration raises nowhere. -/
inductive FailAt where
  | read
  | hashIn
  | normalize
  | hashOut
  | sendWrite
  | ok
deriving DecidableEq

/-- The result of one monitor-loop iteration: the new `last_image_hash`,
the image written to the clipboard (if any), and whether the iteration
aborted with an exception (caught at the loop boundary). -/
structure IterResult where
  last : Option Nat
  written : Option Img
  raised : Bool
deriving DecidableEq

/-- One iteration of the `main` monitor loop (source lines 214–238) at a
given clipboard state and `last_image_hash`, with an explicit exception
point. Failure at a step the control flow never reaches does not occur;
a reached failure aborts the iteration with the state updates performed
so far (none: `last_image_hash` is only assigned after a successful write
or after the no-change comparison). -/
def mainIteration (padding tolerance : Nat) (clip : Clip) (last : Option Nat)
    (f : FailAt) : IterResult :=
  if f = FailAt.read then ⟨last, none, true⟩ else
  match clip with
  | Clip.image i =>
    if f = FailAt.hashIn then ⟨last, none, true⟩ else
    let current_hash := get_image_hash i
    if some current_hash ≠ last then
      if f = FailAt.normalize then ⟨last, none, true⟩ else
      let processed_img := trim_and_expand_border_to_content i padding tolerance
      if f = FailAt.hashOut then ⟨last, none, true⟩ else
      let processed_hash := get_image_hash processed_img
      if processed_hash ≠ current_hash then
        if f = FailAt.sendWrite then ⟨last, none, true⟩ else
        ⟨some processed_hash, some processed_img, false⟩
      else ⟨some current_hash, none, false⟩
    else ⟨last, none, false⟩
  | Clip.text s => if s = "" then ⟨none, none, false⟩ else ⟨last, none, false⟩
  | Clip.other => ⟨last, none, false⟩

/-- Where (if anywhere) `send_image_to_clipboard` fails: while encoding
the BMP, opening the clipboard, emptying it, or setting the data;
`ok` means no failure. -/
inductive SendFail where
  | encode
  | openClip
  | emptyClip
  | setData
  | ok
deriving DecidableEq

/-- One BMP pixel row of the DIB payload: blue, green, red per pixel,
padded with zero bytes to a multiple of four bytes. -/
def bmpRow (row : List Pixel) : List Nat :=
  (row.map (fun p => [p.b, p.g, p.r])).flatten ++
    List.replicate ((4 - (3 * row.length) % 4) % 4) 0

/-- The CF_DIB clipboard payload of an image, as produced by
`img.convert("RGB").save(output, "BMP")` with the 14-byte BMP file header
stripped: the remaining BITMAPINFOHEADER (not modelled byte-by-byte; no
claim inspects it — it is a fixed-shape function of the dimensions)
followed by the pixel rows bottom-up in padded BGR order. The model keeps
exactly the part the claims can distinguish: the payload is a function of
the RGB-converted pixel grid. -/
def dibData (img : Img) : List Nat :=
  [40, (convertRGB img).width, (convertRGB img).height] ++
    (((convertRGB img).pixels.reverse.map bmpRow).flatten)

/-- The result of one call of `send_image_to_clipboard`: the final
clipboard content, whether the call succeeded, and whether the clipboard
ended up closed again. -/
structure SendResult where
  content : Option (List Nat)
  success : Bool
  closed : Bool
deriving DecidableEq

/-- The model of `send_image_to_clipboard(img)` (source lines 131–143)
acting on a clipboard holding `clip0`: encode the BMP and strip the
header, `OpenClipboard`, then inside a try/finally `EmptyClipboard`,
`SetClipboardData(CF_DIB, data)`, and always `CloseClipboard`. A failure
before `EmptyClipboard` leaves the content untouched; a failure in
`SetClipboardData` happens after the clipboard was already emptied, so
the content is lost; the finally-block closes the clipboard in every
case. -/
def send_image_to_clipboard (img : Img) (f : SendFail) (clip0 : Option (List Nat)) :
    SendResult :=
  match f with
  | SendFail.encode => ⟨clip0, false, true⟩
  | SendFail.openClip => ⟨clip0, false, true⟩
  | SendFail.emptyClip => ⟨clip0, false, true⟩
  | SendFail.setData => ⟨none, false, true⟩
  | SendFail.ok => ⟨some (dibData img), true, true⟩

/-- The foreground indicator grid of an image at a given tolerance: 255
where the luma of the per-channel difference from the pixel sampled at
(0,0) strictly exceeds the tolerance, 0 elsewhere. This is the
declarative form of the mask the pipeline computes. -/
def fgIndicator (img : Img) (tolerance : Nat) : List (List Nat) :=
  gridOfFn img.width img.height (fun x y =>
    if tolerance < luma (pixDiff (getPixel img x y) (getPixel img 0 0)) then 255 else 0)

/-- The declarative foreground predicate: the in-range pixel at `(x, y)`
differs from the background sample at (0,0) by a luma of more than the
tolerance. -/
def IsFg (img : Img) (tolerance x y : Nat) : Prop :=
  x < img.width ∧ y < img.height ∧
    tolerance < luma (pixDiff (getPixel img x y) (getPixel img 0 0))

/-- Channel-boundedness of every pixel access of an image (including the
out-of-range default pixel): each color channel is at most 255. -/
def ChOk (img : Img) : Prop :=
  ∀ x y, (getPixel img x y).r ≤ 255 ∧ (getPixel img x y).g ≤ 255 ∧ (getPixel img x y).b ≤ 255

/-- An opaque white pixel. -/
def whitePix : Pixel := ⟨255, 255, 255, 255⟩

/-- An opaque black pixel. -/
def blackPix : Pixel := ⟨0, 0, 0, 255⟩

/-- A 5×1 strip white-black-white-black-white: two separated foreground
pixels on a white background. -/
def stripImage : Img :=
  ⟨PixMode.RGBA, [[whitePix, blackPix, whitePix, blackPix, whitePix]]⟩

/-- A 3×3 white image with a single black center pixel. -/
def dotImage : Img :=
  ⟨PixMode.RGBA, [[whitePix, whitePix, whitePix],
                  [whitePix, blackPix, whitePix],
                  [whitePix, whitePix, whitePix]]⟩

/-- A 1×1 all-white image (uniform, already canonical). -/
def onePix : Img := ⟨PixMode.RGBA, [[whitePix]]⟩

/-- A 2×2 uniform white image. -/
def uniformImage : Img := ⟨PixMode.RGBA, [[whitePix, whitePix], [whitePix, whitePix]]⟩

/-- A 1×1 RGB-mode image with color (10, 20, 30). -/
def rgbImgA : Img := ⟨PixMode.RGB, [[⟨10, 20, 30, 255⟩]]⟩

/-- The same 1×1 pixel data carried in RGBA mode with partial alpha. -/
def rgbaImgA : Img := ⟨PixMode.RGBA, [[⟨10, 20, 30, 77⟩]]⟩

/-- The same 1×1 pixel data carried in RGBA mode with zero alpha. -/
def rgbaImgB : Img := ⟨PixMode.RGBA, [[⟨10, 20, 30, 0⟩]]⟩

instance instDecidableValid (img : Img) : Decidable img.Valid := by
  unfold Img.Valid
  infer_instance

instance instDecidableAlphaFull (img : Img) : Decidable (AlphaFull img) := by
  unfold AlphaFull
  infer_instance

/-! Basic facts about grids built from a coordinate function. -/

theorem gridOfFn_length {α : Type} (w h : Nat) (f : Nat → Nat → α) :
    (gridOfFn w h f).length = h := by
  simp [gridOfFn]

theorem gridOfFn_row {α : Type} {w h y : Nat} (f : Nat → Nat → α) (hy : y < h) :
    (gridOfFn w h f).getD y [] = (List.range w).map (fun x => f x y) := by
  unfold gridOfFn
  rw [List.getD_eq_getElem _ _ (by simpa using hy)]
  simp

theorem gridOfFn_row_length {α : Type} {w h y : Nat} (f : Nat → Nat → α) (hy : y < h) :
    ((gridOfFn w h f).getD y []).length = w := by
  rw [gridOfFn_row f hy]
  simp

theorem gridOfFn_getD {α : Type} {w h x y : Nat} (f : Nat → Nat → α) (d : α)
    (hx : x < w) (hy : y < h) : ((gridOfFn w h f).getD y []).getD x d = f x y := by
  rw [gridOfFn_row f hy, List.getD_eq_getElem _ _ (by simpa using hx)]
  simp

theorem gridOfFn_getD_out {α : Type} {w h x y : Nat} (f : Nat → Nat → α) (d : α)
    (hxy : ¬ (x < w ∧ y < h)) : ((gridOfFn w h f).getD y []).getD x d = d := by
  by_cases hy : y < h
  · have hx : w ≤ x := by omega
    rw [gridOfFn_row f hy]
    exact List.getD_eq_default _ _ (by simpa using hx)
  · have hrow : (gridOfFn w h f).getD y [] = [] := by
      apply List.getD_eq_default
      rw [gridOfFn_length]
      omega
    rw [hrow]
    simp

theorem gridOfFn_getD_split {α : Type} (w h x y : Nat) (f : Nat → Nat → α) (d : α) :
    ((gridOfFn w h f).getD y []).getD x d = if x < w ∧ y < h then f x y else d := by
  by_cases hxy : x < w ∧ y < h
  · rw [if_pos hxy]
    exact gridOfFn_getD f d hxy.1 hxy.2
  · rw [if_neg hxy]
    exact gridOfFn_getD_out f d hxy

theorem gridOfFn_map {α β : Type} (w h : Nat) (f : Nat → Nat → α) (g : α → β) :
    (gridOfFn w h f).map (List.map g) = gridOfFn w h (fun x y => g (f x y)) := by
  simp [gridOfFn, List.map_map]

theorem gridOfFn_congr {α : Type} {w h : Nat} {f f' : Nat → Nat → α}
    (h' : ∀ x < w, ∀ y < h, f x y = f' x y) : gridOfFn w h f = gridOfFn w h f' := by
  unfold gridOfFn
  apply List.map_congr_left
  intro y hy
  apply List.map_congr_left
  intro x hx
  exact h' x (List.mem_range.mp hx) y (List.mem_range.mp hy)

theorem gridOfFn_head_length {α : Type} {w h : Nat} (f : Nat → Nat → α) (hh : 0 < h) :
    ((gridOfFn w h f).headD []).length = w := by
  have : (gridOfFn w h f).headD [] = (gridOfFn w h f).getD 0 [] := by
    cases hg : gridOfFn w h f <;> simp [List.getD]
  rw [this, gridOfFn_row f hh]
  simp

theorem getPixel_mkGrid (mo : PixMode) (w h : Nat) (f : Nat → Nat → Pixel) (x y : Nat) :
    getPixel ⟨mo, gridOfFn w h f⟩ x y = if x < w ∧ y < h then f x y else defaultPixel := by
  unfold getPixel
  exact gridOfFn_getD_split w h x y f defaultPixel

theorem getPixel_imageNew (w h : Nat) (c : Pixel) (x y : Nat) :
    getPixel (imageNew w h c) x y = if x < w ∧ y < h then c else defaultPixel :=
  getPixel_mkGrid PixMode.RGBA w h (fun _ _ => c) x y

/-! Specification of the minimum and maximum of a list of naturals. -/

theorem foldl_min_mem : ∀ (xs : List Nat) (x : Nat), xs.foldl min x ∈ x :: xs := by
  intro xs
  induction xs with
  | nil => intro x; simp
  | cons y ys ih =>
    intro x
    simp only [List.foldl_cons]
    rcases List.mem_cons.mp (ih (min x y)) with h1 | h1
    · rcases Nat.le_total x y with hxy | hxy
      · rw [h1, Nat.min_eq_left hxy]
        simp
      · rw [h1, Nat.min_eq_right hxy]
        simp
    · simp [h1]

theorem foldl_min_le : ∀ (xs : List Nat) (x b : Nat), b ∈ x :: xs → xs.foldl min x ≤ b := by
  intro xs
  induction xs with
  | nil =>
    intro x b hb
    simp only [List.mem_singleton] at hb
    simp [hb]
  | cons y ys ih =>
    intro x b hb
    simp only [List.foldl_cons]
    rcases List.mem_cons.mp hb with h1 | h1
    · subst h1
      exact le_trans (ih (min b y) (min b y) (by simp)) (Nat.min_le_left b y)
    · rcases List.mem_cons.mp h1 with h2 | h2
      · subst h2
        exact le_trans (ih (min x b) (min x b) (by simp)) (Nat.min_le_right x b)
      · exact ih (min x y) b (List.mem_cons_of_mem _ h2)

theorem foldl_max_mem : ∀ (xs : List Nat) (x : Nat), xs.foldl max x ∈ x :: xs := by
  intro xs
  induction xs with
  | nil => intro x; simp
  | cons y ys ih =>
    intro x
    simp only [List.foldl_cons]
    rcases List.mem_cons.mp (ih (max x y)) with h1 | h1
    · rcases Nat.le_total x y with hxy | hxy
      · rw [h1, Nat.max_eq_right hxy]
        simp
      · rw [h1, Nat.max_eq_left hxy]
        simp
    · simp [h1]

theorem foldl_max_ge : ∀ (xs : List Nat) (x b : Nat), b ∈ x :: xs → b ≤ xs.foldl max x := by
  intro xs
  induction xs with
  | nil =>
    intro x b hb
    simp only [List.mem_singleton] at hb
    simp [hb]
  | cons y ys ih =>
    intro x b hb
    simp only [List.foldl_cons]
    rcases List.mem_cons.mp hb with h1 | h1
    · subst h1
      exact le_trans (Nat.le_max_left b y) (ih (max b y) (max b y) (by simp))
    · rcases List.mem_cons.mp h1 with h2 | h2
      · subst h2
        exact le_trans (Nat.le_max_right x b) (ih (max x b) (max x b) (by simp))
      · exact ih (max x y) b (List.mem_cons_of_mem _ h2)

theorem min?_spec {xs : List Nat} {m : Nat} (h : xs.min? = some m) :
    m ∈ xs ∧ ∀ b ∈ xs, m ≤ b := by
  cases xs with
  | nil => simp [List.min?] at h
  | cons x l =>
    have hm : l.foldl min x = m := by
      simpa [List.min?] using h
    subst hm
    exact ⟨foldl_min_mem l x, fun b hb => foldl_min_le l x b hb⟩

theorem max?_spec {xs : List Nat} {m : Nat} (h : xs.max? = some m) :
    m ∈ xs ∧ ∀ b ∈ xs, b ≤ m := by
  cases xs with
  | nil => simp [List.max?] at h
  | cons x l =>
    have hm : l.foldl max x = m := by
      simpa [List.max?] using h
    subst hm
    exact ⟨foldl_max_mem l x, fun b hb => foldl_max_ge l x b hb⟩

theorem min?_eq_some_of {xs : List Nat} {m : Nat} (hm : m ∈ xs) (hle : ∀ b ∈ xs, m ≤ b) :
    xs.min? = some m := by
  cases xs with
  | nil => cases hm
  | cons x l =>
    have h : (x :: l).min? = some (l.foldl min x) := rfl
    rw [h]
    exact congrArg some (Nat.le_antisymm (foldl_min_le l x m hm) (hle _ (foldl_min_mem l x)))

theorem max?_eq_some_of {xs : List Nat} {m : Nat} (hm : m ∈ xs) (hge : ∀ b ∈ xs, b ≤ m) :
    xs.max? = some m := by
  cases xs with
  | nil => cases hm
  | cons x l =>
    have h : (x :: l).max? = some (l.foldl max x) := rfl
    rw [h]
    exact congrArg some (Nat.le_antisymm (hge _ (foldl_max_mem l x)) (foldl_max_ge l x m hm))

theorem min?_eq_none_iff {xs : List Nat} : xs.min? = none ↔ xs = [] := by
  cases xs <;> simp [List.min?]

/-! Membership in the nonzero-coordinate list and the bounding box
computed from it. -/

theorem mem_nonzeroRow {y : Nat} {row : List Nat} {q : Nat × Nat} :
    q ∈ nonzeroRow y row ↔ q.2 = y ∧ q.1 < row.length ∧ row.getD q.1 0 ≠ 0 := by
  unfold nonzeroRow
  simp only [List.mem_filterMap, List.mem_range]
  constructor
  · rintro ⟨x, hx, hfx⟩
    by_cases hz : row.getD x 0 = 0
    · rw [if_pos hz] at hfx
      cases hfx
    · rw [if_neg hz] at hfx
      cases hfx
      exact ⟨rfl, hx, hz⟩
  · rintro ⟨hy, hx, hz⟩
    refine ⟨q.1, hx, ?_⟩
    rw [if_neg hz, ← hy]

theorem mem_nonzeroCoords {g : List (List Nat)} {x y : Nat} :
    (x, y) ∈ nonzeroCoords g ↔
      y < g.length ∧ x < (g.getD y []).length ∧ (g.getD y []).getD x 0 ≠ 0 := by
  unfold nonzeroCoords
  simp only [List.mem_flatten, List.mem_map, List.mem_range]
  constructor
  · rintro ⟨l, ⟨y', hy', rfl⟩, hq⟩
    have h := mem_nonzeroRow.mp hq
    simp only at h
    rcases h with ⟨rfl, hx, hz⟩
    exact ⟨hy', hx, hz⟩
  · rintro ⟨hy, hx, hz⟩
    exact ⟨nonzeroRow y (g.getD y []), ⟨y, hy, rfl⟩, mem_nonzeroRow.mpr ⟨rfl, hx, hz⟩⟩

theorem getbbox_eq_none_iff {g : List (List Nat)} :
    getbbox g = none ↔ nonzeroCoords g = [] := by
  unfold getbbox
  constructor
  · intro h
    by_contra hne
    cases hc : nonzeroCoords g with
    | nil => exact hne hc
    | cons q qs =>
      rw [hc] at h
      simp only [List.map_cons] at h
      cases hm1 : ((q.1 :: (qs.map Prod.fst)).min?) with
      | none => simp [List.min?] at hm1
      | some l =>
        cases hm2 : ((q.2 :: (qs.map Prod.snd)).min?) with
        | none => simp [List.min?] at hm2
        | some t =>
          cases hm3 : ((q.1 :: (qs.map Prod.fst)).max?) with
          | none => simp [List.max?] at hm3
          | some r1 =>
            cases hm4 : ((q.2 :: (qs.map Prod.snd)).max?) with
            | none => simp [List.max?] at hm4
            | some b1 =>
              rw [hm1, hm2, hm3, hm4] at h
              cases h
  · intro h
    rw [h]
    simp [List.min?]

theorem getbbox_some_elim {g : List (List Nat)} {l t r b : Nat}
    (h : getbbox g = some (l, t, r, b)) :
    ((nonzeroCoords g).map Prod.fst).min? = some l ∧
    ((nonzeroCoords g).map Prod.snd).min? = some t ∧
    ((nonzeroCoords g).map Prod.fst).max? = some (r - 1) ∧
    ((nonzeroCoords g).map Prod.snd).max? = some (b - 1) ∧ 1 ≤ r ∧ 1 ≤ b := by
  unfold getbbox at h
  cases hm1 : ((nonzeroCoords g).map Prod.fst).min? with
  | none => rw [hm1] at h; cases h
  | some l' =>
    cases hm2 : ((nonzeroCoords g).map Prod.snd).min? with
    | none => rw [hm1, hm2] at h; cases h
    | some t' =>
      cases hm3 : ((nonzeroCoords g).map Prod.fst).max? with
      | none => rw [hm1, hm2, hm3] at h; cases h
      | some r1 =>
        cases hm4 : ((nonzeroCoords g).map Prod.snd).max? with
        | none => rw [hm1, hm2, hm3, hm4] at h; cases h
        | some b1 =>
          rw [hm1, hm2, hm3, hm4] at h
          simp only [Option.some.injEq, Prod.mk.injEq] at h
          rcases h with ⟨rfl, rfl, hr, hb⟩
          refine ⟨rfl, rfl, ?_, ?_, by omega, by omega⟩
          · exact congrArg some (by omega)
          · exact congrArg some (by omega)

theorem getbbox_eq_some_of {g : List (List Nat)} {l t r1 b1 : Nat}
    (hminx : ((nonzeroCoords g).map Prod.fst).min? = some l)
    (hminy : ((nonzeroCoords g).map Prod.snd).min? = some t)
    (hmaxx : ((nonzeroCoords g).map Prod.fst).max? = some r1)
    (hmaxy : ((nonzeroCoords g).map Prod.snd).max? = some b1) :
    getbbox g = some (l, t, r1 + 1, b1 + 1) := by
  unfold getbbox
  rw [hminx, hminy, hmaxx, hmaxy]

/-! Facts about channel arithmetic: absolute difference, luma, the
lookup table, and Pillow's blend rounding. -/

theorem absdiff_self (m : Nat) : absdiff m m = 0 := by
  simp [absdiff]

theorem absdiff_le {m n k : Nat} (hm : m ≤ k) (hn : n ≤ k) : absdiff m n ≤ k := by
  unfold absdiff
  omega

theorem luma_le_255 {p : Pixel} (hr : p.r ≤ 255) (hg : p.g ≤ 255) (hb : p.b ≤ 255) :
    luma p ≤ 255 := by
  unfold luma
  have h : 19595 * p.r + 38470 * p.g + 7471 * p.b ≤ 65536 * 255 := by nlinarith
  calc (19595 * p.r + 38470 * p.g + 7471 * p.b) / 65536 ≤ 65536 * 255 / 65536 :=
        Nat.div_le_div_right h
    _ = 255 := by norm_num

theorem luma_zero : luma ⟨0, 0, 0, 0⟩ = 0 := rfl

theorem luma_pixDiff_self (p : Pixel) : luma (pixDiff p p) = 0 := by
  simp [pixDiff, absdiff_self, luma]

theorem luma_pixDiff_rgb255 (p q : Pixel) :
    luma (pixDiff (rgb255 p) (rgb255 q)) = luma (pixDiff p q) := by
  unfold rgb255 pixDiff luma
  rfl

theorem lut_getD {tolerance v : Nat} (hv : v ≤ 255) :
    (lut tolerance).getD v 0 = if tolerance < v then 255 else 0 := by
  unfold lut
  have hlen : v < ((List.range 256).map
      (fun i => if tolerance < i then 255 else 0)).length := by
    rw [List.length_map, List.length_range]
    omega
  rw [List.getD_eq_getElem _ _ hlen]
  simp only [List.getElem_map, List.getElem_range]

theorem mulDiv255_zero (x : Nat) : mulDiv255 x 0 = 0 := by
  simp [mulDiv255]

theorem mulDiv255_255 {x : Nat} (hx : x ≤ 255) : mulDiv255 x 255 = x := by
  unfold mulDiv255
  have h := Nat.div_add_mod (x * 255 + 128) 256
  omega

theorem blendCh_full {c1 c2 : Nat} (hc2 : c2 ≤ 255) : blendCh c1 c2 255 = c2 := by
  unfold blendCh
  rw [Nat.sub_self, mulDiv255_zero, mulDiv255_255 hc2]
  omega

theorem blendPix_full {p q : Pixel} (hr : q.r ≤ 255) (hg : q.g ≤ 255) (hb : q.b ≤ 255)
    (ha : q.a ≤ 255) : blendPix p q 255 = q := by
  unfold blendPix
  rw [blendCh_full hr, blendCh_full hg, blendCh_full hb, blendCh_full ha]

/-! Consequences of image validity. -/

theorem getD_mem {α : Type} {l : List α} {i : Nat} (d : α) (h : i < l.length) :
    l.getD i d ∈ l := by
  rw [List.getD_eq_getElem _ _ h]
  exact List.getElem_mem _

theorem getPixel_mem {img : Img} {x y : Nat} (hy : y < img.pixels.length)
    (hx : x < (img.pixels.getD y []).length) :
    ∃ row ∈ img.pixels, getPixel img x y ∈ row :=
  ⟨img.pixels.getD y [], getD_mem [] hy, getD_mem defaultPixel hx⟩

theorem getPixel_out {img : Img} {x y : Nat}
    (h : ¬ (y < img.pixels.length ∧ x < (img.pixels.getD y []).length)) :
    getPixel img x y = defaultPixel := by
  unfold getPixel
  by_cases hy : y < img.pixels.length
  · exact List.getD_eq_default _ _ (by omega)
  · rw [List.getD_eq_default _ _ (Nat.le_of_not_lt hy)]
    simp

theorem valid_row_len {img : Img} (hv : img.Valid) {y : Nat} (hy : y < img.height) :
    (img.pixels.getD y []).length = img.width :=
  (hv.1 _ (getD_mem [] hy)).1

theorem valid_chOk {img : Img} (hv : img.Valid) : ChOk img := by
  intro x y
  by_cases h : y < img.pixels.length ∧ x < (img.pixels.getD y []).length
  · obtain ⟨row, hrow, hmem⟩ := getPixel_mem h.1 h.2
    have hb := (hv.1 row hrow).2 _ hmem
    exact ⟨hb.1, hb.2.1, hb.2.2.1⟩
  · rw [getPixel_out h]
    refine ⟨?_, ?_, ?_⟩ <;> simp [defaultPixel]

theorem alphaFull_getPixel {img : Img} (ha : AlphaFull img) {x y : Nat}
    (hy : y < img.pixels.length) (hx : x < (img.pixels.getD y []).length) :
    (getPixel img x y).a = 255 := by
  obtain ⟨row, hrow, hmem⟩ := getPixel_mem hy hx
  exact ha row hrow _ hmem

theorem chOk_mkGrid {mo : PixMode} {w h : Nat} {f : Nat → Nat → Pixel}
    (hf : ∀ x < w, ∀ y < h, (f x y).r ≤ 255 ∧ (f x y).g ≤ 255 ∧ (f x y).b ≤ 255) :
    ChOk ⟨mo, gridOfFn w h f⟩ := by
  intro x y
  rw [getPixel_mkGrid]
  by_cases hxy : x < w ∧ y < h
  · rw [if_pos hxy]
    exact hf x hxy.1 y hxy.2
  · rw [if_neg hxy]
    refine ⟨?_, ?_, ?_⟩ <;> simp [defaultPixel]

theorem getPixel_convertRGBA (img : Img) (x y : Nat) :
    getPixel (convertRGBA img) x y = getPixel img x y := rfl

theorem chOk_convertRGBA {img : Img} (h : ChOk img) : ChOk (convertRGBA img) := h

/-! The thresholded mask of the pipeline is exactly the declarative
foreground indicator. -/

theorem contentMask_eq_fgIndicator (img : Img) (tol : Nat) (hch : ChOk img) :
    contentMask img tol = fgIndicator img tol := by
  rw [show contentMask img tol = point (convertL (difference img
    (imageNew img.width img.height (getPixel img 0 0)))) (lut tol) from rfl]
  have hd : difference img (imageNew img.width img.height (getPixel img 0 0)) =
      ⟨PixMode.RGBA, gridOfFn img.width img.height
        (fun x y => pixDiff (getPixel img x y) (getPixel img 0 0))⟩ := by
    unfold difference
    congr 1
    apply gridOfFn_congr
    intro x hx y hy
    show pixDiff (getPixel img x y)
        (getPixel (imageNew img.width img.height (getPixel img 0 0)) x y) =
      pixDiff (getPixel img x y) (getPixel img 0 0)
    rw [getPixel_imageNew, if_pos ⟨hx, hy⟩]
  rw [hd]
  unfold convertL point fgIndicator
  rw [show (Img.mk PixMode.RGBA (gridOfFn img.width img.height
    (fun x y => pixDiff (getPixel img x y) (getPixel img 0 0)))).pixels =
    gridOfFn img.width img.height
    (fun x y => pixDiff (getPixel img x y) (getPixel img 0 0)) from rfl]
  rw [gridOfFn_map, gridOfFn_map]
  apply gridOfFn_congr
  intro x hx y hy
  have hb := hch x y
  have hb0 := hch 0 0
  have hle : luma (pixDiff (getPixel img x y) (getPixel img 0 0)) ≤ 255 := by
    apply luma_le_255
    · exact absdiff_le hb.1 hb0.1
    · exact absdiff_le hb.2.1 hb0.2.1
    · exact absdiff_le hb.2.2 hb0.2.2
  rw [lut_getD hle]

theorem find_content_box_eq_fg (img : Img) (tol : Nat) (hch : ChOk img) :
    find_content_box img tol = getbbox (fgIndicator img tol) := by
  unfold find_content_box
  rw [contentMask_eq_fgIndicator img tol hch]

/-! Dimensions and pixel access of the images built by the pipeline. -/

theorem mkImg_height (mo : PixMode) (w h : Nat) (f : Nat → Nat → Pixel) :
    (Img.mk mo (gridOfFn w h f)).height = h :=
  gridOfFn_length w h f

theorem mkImg_width {h : Nat} (mo : PixMode) (w : Nat) (f : Nat → Nat → Pixel)
    (hh : 0 < h) : (Img.mk mo (gridOfFn w h f)).width = w :=
  gridOfFn_head_length f hh

theorem imageNew_height (w h : Nat) (c : Pixel) : (imageNew w h c).height = h :=
  mkImg_height PixMode.RGBA w h _

theorem imageNew_width {h : Nat} (w : Nat) (c : Pixel) (hh : 0 < h) :
    (imageNew w h c).width = w :=
  mkImg_width PixMode.RGBA w _ hh

theorem crop_height (img : Img) (l t r b : Nat) : (crop img l t r b).height = b - t :=
  mkImg_height img.mode (r - l) (b - t) _

theorem crop_width {t b : Nat} (img : Img) (l r : Nat) (h : t < b) :
    (crop img l t r b).width = r - l :=
  mkImg_width img.mode (r - l) _ (by omega)

theorem getPixel_crop (img : Img) (l t r b x y : Nat) :
    getPixel (crop img l t r b) x y =
      if x < r - l ∧ y < b - t then getPixel img (l + x) (t + y) else defaultPixel := by
  unfold crop getPixel
  exact gridOfFn_getD_split (r - l) (b - t) x y _ defaultPixel

theorem convertRGB_mkGrid (mo : PixMode) (w h : Nat) (f : Nat → Nat → Pixel) :
    convertRGB ⟨mo, gridOfFn w h f⟩ =
      ⟨PixMode.RGB, gridOfFn w h (fun x y => rgb255 (f x y))⟩ := by
  unfold convertRGB
  rw [show (Img.mk mo (gridOfFn w h f)).pixels = gridOfFn w h f from rfl, gridOfFn_map]

/-! Membership of the nonzero mask coordinates is exactly the
foreground predicate, and the bounding box is characterized by it. -/

theorem mem_nonzero_fg {img : Img} {tol x y : Nat} :
    (x, y) ∈ nonzeroCoords (fgIndicator img tol) ↔ IsFg img tol x y := by
  rw [mem_nonzeroCoords]
  unfold fgIndicator IsFg
  constructor
  · rintro ⟨hy, hx, hz⟩
    rw [gridOfFn_length] at hy
    rw [gridOfFn_row_length _ hy] at hx
    rw [gridOfFn_getD _ _ hx hy] at hz
    by_cases hc : tol < luma (pixDiff (getPixel img x y) (getPixel img 0 0))
    · exact ⟨hx, hy, hc⟩
    · rw [if_neg hc] at hz
      exact absurd rfl hz
  · rintro ⟨hx, hy, hc⟩
    rw [gridOfFn_length]
    refine ⟨hy, ?_, ?_⟩
    · rw [gridOfFn_row_length _ hy]
      exact hx
    · rw [gridOfFn_getD _ _ hx hy, if_pos hc]
      norm_num

theorem fg_box_none_iff {img : Img} {tol : Nat} :
    getbbox (fgIndicator img tol) = none ↔ ∀ x y, ¬ IsFg img tol x y := by
  rw [getbbox_eq_none_iff, List.eq_nil_iff_forall_not_mem]
  constructor
  · intro h x y hfg
    exact h (x, y) (mem_nonzero_fg.mpr hfg)
  · intro h q hq
    obtain ⟨qx, qy⟩ := q
    exact h qx qy (mem_nonzero_fg.mp hq)

theorem fg_box_some {img : Img} {tol l t r b : Nat}
    (h : getbbox (fgIndicator img tol) = some (l, t, r, b)) :
    (∃ y, IsFg img tol l y) ∧ (∃ x, IsFg img tol x t) ∧
    (∃ y, IsFg img tol (r - 1) y) ∧ (∃ x, IsFg img tol x (b - 1)) ∧
    (∀ x y, IsFg img tol x y → l ≤ x ∧ x < r ∧ t ≤ y ∧ y < b) ∧ 1 ≤ r ∧ 1 ≤ b := by
  obtain ⟨hminx, hminy, hmaxx, hmaxy, hr, hb⟩ := getbbox_some_elim h
  obtain ⟨hminx_mem, hminx_le⟩ := min?_spec hminx
  obtain ⟨hminy_mem, hminy_le⟩ := min?_spec hminy
  obtain ⟨hmaxx_mem, hmaxx_ge⟩ := max?_spec hmaxx
  obtain ⟨hmaxy_mem, hmaxy_ge⟩ := max?_spec hmaxy
  refine ⟨?_, ?_, ?_, ?_, ?_, hr, hb⟩
  · obtain ⟨q, hq, hq1⟩ := List.mem_map.mp hminx_mem
    obtain ⟨qx, qy⟩ := q
    cases hq1
    exact ⟨qy, mem_nonzero_fg.mp hq⟩
  · obtain ⟨q, hq, hq1⟩ := List.mem_map.mp hminy_mem
    obtain ⟨qx, qy⟩ := q
    cases hq1
    exact ⟨qx, mem_nonzero_fg.mp hq⟩
  · obtain ⟨q, hq, hq1⟩ := List.mem_map.mp hmaxx_mem
    obtain ⟨qx, qy⟩ := q
    cases hq1
    exact ⟨qy, mem_nonzero_fg.mp hq⟩
  · obtain ⟨q, hq, hq1⟩ := List.mem_map.mp hmaxy_mem
    obtain ⟨qx, qy⟩ := q
    cases hq1
    exact ⟨qx, mem_nonzero_fg.mp hq⟩
  · intro x y hfg
    have hmem := mem_nonzero_fg.mpr hfg
    have h1 := hminx_le x (List.mem_map.mpr ⟨(x, y), hmem, rfl⟩)
    have h2 := hminy_le y (List.mem_map.mpr ⟨(x, y), hmem, rfl⟩)
    have h3 := hmaxx_ge x (List.mem_map.mpr ⟨(x, y), hmem, rfl⟩)
    have h4 := hmaxy_ge y (List.mem_map.mpr ⟨(x, y), hmem, rfl⟩)
    omega

theorem fg_box_eq_some {img : Img} {tol l t r1 b1 : Nat}
    (hex1 : ∃ y, IsFg img tol l y) (hex2 : ∃ x, IsFg img tol x t)
    (hex3 : ∃ y, IsFg img tol r1 y) (hex4 : ∃ x, IsFg img tol x b1)
    (hbd : ∀ x y, IsFg img tol x y → l ≤ x ∧ x ≤ r1 ∧ t ≤ y ∧ y ≤ b1) :
    getbbox (fgIndicator img tol) = some (l, t, r1 + 1, b1 + 1) := by
  obtain ⟨y1, hy1⟩ := hex1
  obtain ⟨x2, hx2⟩ := hex2
  obtain ⟨y3, hy3⟩ := hex3
  obtain ⟨x4, hx4⟩ := hex4
  apply getbbox_eq_some_of
  · apply min?_eq_some_of
    · exact List.mem_map.mpr ⟨(l, y1), mem_nonzero_fg.mpr hy1, rfl⟩
    · intro v hv
      obtain ⟨q, hq, hq1⟩ := List.mem_map.mp hv
      obtain ⟨qx, qy⟩ := q
      cases hq1
      exact (hbd _ _ (mem_nonzero_fg.mp hq)).1
  · apply min?_eq_some_of
    · exact List.mem_map.mpr ⟨(x2, t), mem_nonzero_fg.mpr hx2, rfl⟩
    · intro v hv
      obtain ⟨q, hq, hq1⟩ := List.mem_map.mp hv
      obtain ⟨qx, qy⟩ := q
      cases hq1
      exact (hbd _ _ (mem_nonzero_fg.mp hq)).2.2.1
  · apply max?_eq_some_of
    · exact List.mem_map.mpr ⟨(r1, y3), mem_nonzero_fg.mpr hy3, rfl⟩
    · intro v hv
      obtain ⟨q, hq, hq1⟩ := List.mem_map.mp hv
      obtain ⟨qx, qy⟩ := q
      cases hq1
      exact (hbd _ _ (mem_nonzero_fg.mp hq)).2.1
  · apply max?_eq_some_of
    · exact List.mem_map.mpr ⟨(x4, b1), mem_nonzero_fg.mpr hx4, rfl⟩
    · intro v hv
      obtain ⟨q, hq, hq1⟩ := List.mem_map.mp hv
      obtain ⟨qx, qy⟩ := q
      cases hq1
      exact (hbd _ _ (mem_nonzero_fg.mp hq)).2.2.2

/-! Reducing the border normalizer along the two branches of the
content-box match, and the full characterization of the non-uniform
branch. -/

theorem trim_of_none {img0 : Img} {p t : Nat}
    (h : find_content_box (convertRGBA img0) t = none) :
    trim_and_expand_border_to_content img0 p t = convertRGBA img0 := by
  simp only [trim_and_expand_border_to_content]
  rw [h]

theorem trim_of_box {img0 : Img} {p t l t0 r b : Nat}
    (h : find_content_box (convertRGBA img0) t = some (l, t0, r, b)) :
    trim_and_expand_border_to_content img0 p t =
      convertRGB (paste
        (imageNew ((crop (convertRGBA img0) l t0 r b).width + p * 2)
          ((crop (convertRGBA img0) l t0 r b).height + p * 2)
          (getPixel (convertRGBA img0) 0 0))
        (crop (convertRGBA img0) l t0 r b) p p) := by
  simp only [trim_and_expand_border_to_content]
  rw [h]

theorem valid_mkGrid255 (mo : PixMode) {w h : Nat} {f : Nat → Nat → Pixel} (hh : 0 < h)
    (hf : ∀ x < w, ∀ y < h, (f x y).r ≤ 255 ∧ (f x y).g ≤ 255 ∧ (f x y).b ≤ 255 ∧
      (f x y).a = 255) :
    (Img.mk mo (gridOfFn w h f)).Valid ∧
      AlphaFull ⟨mo, gridOfFn w h f⟩ := by
  have hmem : ∀ row ∈ gridOfFn w h f, ∀ q ∈ row, ∃ x < w, ∃ y < h, q = f x y := by
    intro row hrow q hq
    unfold gridOfFn at hrow
    obtain ⟨y, hy, rfl⟩ := List.mem_map.mp hrow
    obtain ⟨x, hx, rfl⟩ := List.mem_map.mp hq
    exact ⟨x, List.mem_range.mp hx, y, List.mem_range.mp (by simpa using hy), rfl⟩
  have hlen : ∀ row ∈ gridOfFn w h f, row.length = w := by
    intro row hrow
    unfold gridOfFn at hrow
    obtain ⟨y, hy, rfl⟩ := List.mem_map.mp hrow
    simp
  refine ⟨⟨?_, ?_⟩, ?_⟩
  · intro row hrow
    refine ⟨by rw [hlen row hrow, mkImg_width mo w f hh], ?_⟩
    intro q hq
    obtain ⟨x, hx, y, hy, rfl⟩ := hmem row hrow q hq
    have := hf x hx y hy
    exact ⟨this.1, this.2.1, this.2.2.1, le_of_eq this.2.2.2⟩
  · intro _ row hrow q hq
    obtain ⟨x, hx, y, hy, rfl⟩ := hmem row hrow q hq
    exact (hf x hx y hy).2.2.2
  · intro row hrow q hq
    obtain ⟨x, hx, y, hy, rfl⟩ := hmem row hrow q hq
    exact (hf x hx y hy).2.2.2

theorem trim_some_char {img0 : Img} {p t l t0 r b : Nat}
    (hv : img0.Valid) (ha : AlphaFull img0)
    (hbox : find_content_box (convertRGBA img0) t = some (l, t0, r, b)) :
    l < r ∧ t0 < b ∧ r ≤ img0.width ∧ b ≤ img0.height ∧
    trim_and_expand_border_to_content img0 p t =
      ⟨PixMode.RGB, gridOfFn ((r - l) + p * 2) ((b - t0) + p * 2) (fun x y =>
        if p ≤ x ∧ x < p + (r - l) ∧ p ≤ y ∧ y < p + (b - t0) then
          rgb255 (getPixel img0 (l + (x - p)) (t0 + (y - p)))
        else rgb255 (getPixel img0 0 0))⟩ := by
  have hch : ChOk (convertRGBA img0) := chOk_convertRGBA (valid_chOk hv)
  have hfgbox : getbbox (fgIndicator (convertRGBA img0) t) = some (l, t0, r, b) := by
    rw [← find_content_box_eq_fg _ _ hch]
    exact hbox
  obtain ⟨⟨yl, hyl⟩, ⟨xt, hxt⟩, ⟨yr, hyr⟩, ⟨xb, hxb⟩, hbd, hr1, hb1⟩ := fg_box_some hfgbox
  have hWH : (convertRGBA img0).width = img0.width ∧
      (convertRGBA img0).height = img0.height := ⟨rfl, rfl⟩
  have hlr : l < r := by
    have := hbd _ _ hyl
    omega
  have htb : t0 < b := by
    have := hbd _ _ hxt
    omega
  have hrW : r ≤ img0.width := by
    have := hyr.1
    rw [hWH.1] at this
    omega
  have hbH : b ≤ img0.height := by
    have := hxb.2.1
    rw [hWH.2] at this
    omega
  refine ⟨hlr, htb, hrW, hbH, ?_⟩
  rw [trim_of_box hbox]
  have hcw : (crop (convertRGBA img0) l t0 r b).width = r - l := crop_width _ _ _ htb
  have hchh : (crop (convertRGBA img0) l t0 r b).height = b - t0 := crop_height _ _ _ _ _
  rw [hcw, hchh]
  have hH' : 0 < (b - t0) + p * 2 := by omega
  have hpaste : paste (imageNew ((r - l) + p * 2) ((b - t0) + p * 2)
      (getPixel (convertRGBA img0) 0 0)) (crop (convertRGBA img0) l t0 r b) p p =
      ⟨PixMode.RGBA, gridOfFn ((r - l) + p * 2) ((b - t0) + p * 2) (fun x y =>
        if p ≤ x ∧ x < p + (r - l) ∧ p ≤ y ∧ y < p + (b - t0) then
          getPixel img0 (l + (x - p)) (t0 + (y - p))
        else getPixel img0 0 0)⟩ := by
    unfold paste
    rw [show (imageNew ((r - l) + p * 2) ((b - t0) + p * 2)
      (getPixel (convertRGBA img0) 0 0)).mode = PixMode.RGBA from rfl]
    rw [imageNew_width _ _ hH', imageNew_height, hcw, hchh]
    congr 1
    apply gridOfFn_congr
    intro x hx y hy
    by_cases hin : p ≤ x ∧ x < p + (r - l) ∧ p ≤ y ∧ y < p + (b - t0)
    · rw [if_pos hin, if_pos hin]
      have hxr : x - p < r - l := by omega
      have hyb : y - p < b - t0 := by omega
      have hcp : getPixel (crop (convertRGBA img0) l t0 r b) (x - p) (y - p) =
          getPixel img0 (l + (x - p)) (t0 + (y - p)):= by
        rw [getPixel_crop, if_pos ⟨hxr, hyb⟩]
        rfl
      rw [hcp]
      have hyin : t0 + (y - p) < img0.pixels.length := by
        have hb' : b ≤ img0.pixels.length := hbH
        omega
      have hxin : l + (x - p) < (img0.pixels.getD (t0 + (y - p)) []).length := by
        rw [valid_row_len hv hyin]
        have : l + (x - p) < r := by omega
        omega
      have hal : (getPixel img0 (l + (x - p)) (t0 + (y - p))).a = 255 :=
        alphaFull_getPixel ha hyin hxin
      have hcb := valid_chOk hv (l + (x - p)) (t0 + (y - p))
      rw [hal]
      apply blendPix_full hcb.1 hcb.2.1 hcb.2.2
      rw [hal]
    · rw [if_neg hin, if_neg hin]
      rw [getPixel_imageNew, if_pos ⟨hx, hy⟩]
      rfl
  rw [hpaste, convertRGB_mkGrid]
  congr 1
  apply gridOfFn_congr
  intro x hx y hy
  by_cases hin : p ≤ x ∧ x < p + (r - l) ∧ p ≤ y ∧ y < p + (b - t0)
  · rw [if_pos hin, if_pos hin]
  · rw [if_neg hin, if_neg hin]

theorem rgb255_rgb255 (q : Pixel) : rgb255 (rgb255 q) = rgb255 q := rfl

/-! Idempotence of the border normalizer on fully opaque valid images
with positive padding. -/

theorem trim_idem (img0 : Img) (p t : Nat) (hv : img0.Valid) (ha : AlphaFull img0)
    (hp : 1 ≤ p) :
    trim_and_expand_border_to_content (trim_and_expand_border_to_content img0 p t) p t
      = trim_and_expand_border_to_content img0 p t := by
  have hch : ChOk (convertRGBA img0) := chOk_convertRGBA (valid_chOk hv)
  cases hbox : find_content_box (convertRGBA img0) t with
  | none =>
    have h1 : trim_and_expand_border_to_content img0 p t = convertRGBA img0 :=
      trim_of_none hbox
    rw [h1]
    have h3 : find_content_box (convertRGBA (convertRGBA img0)) t = none := hbox
    rw [trim_of_none h3]
    rfl
  | some box =>
    obtain ⟨l, t0, r, b⟩ := box
    obtain ⟨hlr, htb, hrW, hbH, hchar⟩ := trim_some_char (p := p) hv ha hbox
    rw [hchar]
    have hfgbox : getbbox (fgIndicator (convertRGBA img0) t) = some (l, t0, r, b) := by
      rw [← find_content_box_eq_fg _ _ hch]
      exact hbox
    obtain ⟨⟨yl, hyl⟩, ⟨xt, hxt⟩, ⟨yr, hyr⟩, ⟨xb, hxb⟩, hbd, hr1, hb1⟩ := fg_box_some hfgbox
    have hH2 : 0 < (b - t0) + p * 2 := by omega
    have hW2 : 0 < (r - l) + p * 2 := by omega
    have hcb0 := valid_chOk hv 0 0
    -- the first-pass output and its pixel accessor
    have hgetout : ∀ x y, x < (r - l) + p * 2 → y < (b - t0) + p * 2 →
        getPixel ⟨PixMode.RGB, gridOfFn ((r - l) + p * 2) ((b - t0) + p * 2) (fun x y =>
          if p ≤ x ∧ x < p + (r - l) ∧ p ≤ y ∧ y < p + (b - t0) then
            rgb255 (getPixel img0 (l + (x - p)) (t0 + (y - p)))
          else rgb255 (getPixel img0 0 0))⟩ x y =
          (if p ≤ x ∧ x < p + (r - l) ∧ p ≤ y ∧ y < p + (b - t0) then
            rgb255 (getPixel img0 (l + (x - p)) (t0 + (y - p)))
          else rgb255 (getPixel img0 0 0)) := by
      intro x y hx hy
      rw [getPixel_mkGrid, if_pos ⟨hx, hy⟩]
    have hbg2 : getPixel ⟨PixMode.RGB, gridOfFn ((r - l) + p * 2) ((b - t0) + p * 2)
        (fun x y => if p ≤ x ∧ x < p + (r - l) ∧ p ≤ y ∧ y < p + (b - t0) then
          rgb255 (getPixel img0 (l + (x - p)) (t0 + (y - p)))
        else rgb255 (getPixel img0 0 0))⟩ 0 0 = rgb255 (getPixel img0 0 0) := by
      rw [hgetout 0 0 hW2 hH2, if_neg (by omega)]
    -- validity and opacity of the first-pass output
    have hvout := valid_mkGrid255 PixMode.RGB (w := (r - l) + p * 2) hH2
      (f := fun x y => if p ≤ x ∧ x < p + (r - l) ∧ p ≤ y ∧ y < p + (b - t0) then
        rgb255 (getPixel img0 (l + (x - p)) (t0 + (y - p)))
      else rgb255 (getPixel img0 0 0))
      (by
        intro x hx y hy
        dsimp only
        by_cases hin : p ≤ x ∧ x < p + (r - l) ∧ p ≤ y ∧ y < p + (b - t0)
        · rw [if_pos hin]
          have hcb := valid_chOk hv (l + (x - p)) (t0 + (y - p))
          exact ⟨hcb.1, hcb.2.1, hcb.2.2, rfl⟩
        · rw [if_neg hin]
          exact ⟨hcb0.1, hcb0.2.1, hcb0.2.2, rfl⟩)
    -- the foreground predicate of the second pass
    have hfg2 : ∀ x y, IsFg (convertRGBA ⟨PixMode.RGB,
        gridOfFn ((r - l) + p * 2) ((b - t0) + p * 2) (fun x y =>
          if p ≤ x ∧ x < p + (r - l) ∧ p ≤ y ∧ y < p + (b - t0) then
            rgb255 (getPixel img0 (l + (x - p)) (t0 + (y - p)))
          else rgb255 (getPixel img0 0 0))⟩) t x y ↔
        (p ≤ x ∧ x < p + (r - l) ∧ p ≤ y ∧ y < p + (b - t0) ∧
          t < luma (pixDiff (getPixel img0 (l + (x - p)) (t0 + (y - p)))
            (getPixel img0 0 0))) := by
      intro x y
      unfold IsFg
      rw [show convertRGBA ⟨PixMode.RGB, gridOfFn ((r - l) + p * 2) ((b - t0) + p * 2)
        (fun x y => if p ≤ x ∧ x < p + (r - l) ∧ p ≤ y ∧ y < p + (b - t0) then
          rgb255 (getPixel img0 (l + (x - p)) (t0 + (y - p)))
        else rgb255 (getPixel img0 0 0))⟩ = ⟨PixMode.RGBA,
        gridOfFn ((r - l) + p * 2) ((b - t0) + p * 2) (fun x y =>
          if p ≤ x ∧ x < p + (r - l) ∧ p ≤ y ∧ y < p + (b - t0) then
            rgb255 (getPixel img0 (l + (x - p)) (t0 + (y - p)))
          else rgb255 (getPixel img0 0 0))⟩ from rfl]
      rw [mkImg_width _ _ _ hH2, mkImg_height]
      have h00 : getPixel ⟨PixMode.RGBA,
          gridOfFn ((r - l) + p * 2) ((b - t0) + p * 2) (fun x y =>
            if p ≤ x ∧ x < p + (r - l) ∧ p ≤ y ∧ y < p + (b - t0) then
              rgb255 (getPixel img0 (l + (x - p)) (t0 + (y - p)))
            else rgb255 (getPixel img0 0 0))⟩ 0 0 = rgb255 (getPixel img0 0 0) := by
        rw [getPixel_mkGrid, if_pos ⟨hW2, hH2⟩, if_neg (by omega)]
      rw [h00, getPixel_mkGrid]
      constructor
      · rintro ⟨hx, hy, hluma⟩
        rw [if_pos ⟨hx, hy⟩] at hluma
        by_cases hin : p ≤ x ∧ x < p + (r - l) ∧ p ≤ y ∧ y < p + (b - t0)
        · rw [if_pos hin, luma_pixDiff_rgb255] at hluma
          exact ⟨hin.1, hin.2.1, hin.2.2.1, hin.2.2.2, hluma⟩
        · rw [if_neg hin, luma_pixDiff_rgb255, luma_pixDiff_self] at hluma
          omega
      · rintro ⟨hx1, hx2, hy1, hy2, hluma⟩
        have hx : x < (r - l) + p * 2 := by omega
        have hy : y < (b - t0) + p * 2 := by omega
        refine ⟨hx, hy, ?_⟩
        rw [if_pos ⟨hx, hy⟩, if_pos ⟨hx1, hx2, hy1, hy2⟩, luma_pixDiff_rgb255]
        exact hluma
    -- compute the second-pass content box
    have hch2 : ChOk (convertRGBA ⟨PixMode.RGB,
        gridOfFn ((r - l) + p * 2) ((b - t0) + p * 2) (fun x y =>
          if p ≤ x ∧ x < p + (r - l) ∧ p ≤ y ∧ y < p + (b - t0) then
            rgb255 (getPixel img0 (l + (x - p)) (t0 + (y - p)))
          else rgb255 (getPixel img0 0 0))⟩) := by
      apply chOk_mkGrid
      intro x hx y hy
      dsimp only
      by_cases hin : p ≤ x ∧ x < p + (r - l) ∧ p ≤ y ∧ y < p + (b - t0)
      · rw [if_pos hin]
        have hcb := valid_chOk hv (l + (x - p)) (t0 + (y - p))
        exact ⟨hcb.1, hcb.2.1, hcb.2.2⟩
      · rw [if_neg hin]
        exact ⟨hcb0.1, hcb0.2.1, hcb0.2.2⟩
    have hbox2 : find_content_box (convertRGBA ⟨PixMode.RGB,
        gridOfFn ((r - l) + p * 2) ((b - t0) + p * 2) (fun x y =>
          if p ≤ x ∧ x < p + (r - l) ∧ p ≤ y ∧ y < p + (b - t0) then
            rgb255 (getPixel img0 (l + (x - p)) (t0 + (y - p)))
          else rgb255 (getPixel img0 0 0))⟩) t =
        some (p, p, p + (r - l), p + (b - t0)) := by
      rw [find_content_box_eq_fg _ _ hch2]
      conv_rhs => rw [show p + (r - l) = (p + (r - l) - 1) + 1 by omega,
        show p + (b - t0) = (p + (b - t0) - 1) + 1 by omega]
      refine fg_box_eq_some ⟨yl - t0 + p, ?_⟩ ⟨xt - l + p, ?_⟩
        ⟨yr - t0 + p, ?_⟩ ⟨xb - l + p, ?_⟩ ?_
      · rw [hfg2]
        have hbb := hbd _ _ hyl
        refine ⟨le_refl p, by omega, by omega, by omega, ?_⟩
        rw [show l + (p - p) = l by omega, show t0 + (yl - t0 + p - p) = yl by omega]
        exact hyl.2.2
      · rw [hfg2]
        have hbb := hbd _ _ hxt
        refine ⟨by omega, by omega, le_refl p, by omega, ?_⟩
        rw [show l + (xt - l + p - p) = xt by omega, show t0 + (p - p) = t0 by omega]
        exact hxt.2.2
      · rw [hfg2]
        have hbb := hbd _ _ hyr
        refine ⟨by omega, by omega, by omega, by omega, ?_⟩
        rw [show l + (p + (r - l) - 1 - p) = r - 1 by omega,
          show t0 + (yr - t0 + p - p) = yr by omega]
        exact hyr.2.2
      · rw [hfg2]
        have hbb := hbd _ _ hxb
        refine ⟨by omega, by omega, by omega, by omega, ?_⟩
        rw [show l + (xb - l + p - p) = xb by omega,
          show t0 + (p + (b - t0) - 1 - p) = b - 1 by omega]
        exact hxb.2.2
      · intro x y hfgxy
        rw [hfg2] at hfgxy
        omega
    -- apply the characterization to the second pass and close
    obtain ⟨_, _, _, _, hchar2⟩ := trim_some_char (p := p) hvout.1 hvout.2 hbox2
    rw [hchar2]
    rw [show p + (r - l) - p = r - l by omega, show p + (b - t0) - p = b - t0 by omega]
    congr 1
    apply gridOfFn_congr
    intro x hx y hy
    by_cases hin : p ≤ x ∧ x < p + (r - l) ∧ p ≤ y ∧ y < p + (b - t0)
    · rw [if_pos hin, if_pos hin]
      rw [show p + (x - p) = x by omega, show p + (y - p) = y by omega]
      rw [hgetout x y hx hy, if_pos hin, rgb255_rgb255]
    · rw [if_neg hin, if_neg hin, hbg2, rgb255_rgb255]

/-! The uniform case: when every pixel is within tolerance of the
background sample, there is no content box and the image passes through. -/

theorem trim_uniform {img : Img} {t : Nat} (p : Nat) (hch : ChOk img)
    (hunif : ∀ x y, x < img.width → y < img.height →
      luma (pixDiff (getPixel img x y) (getPixel img 0 0)) ≤ t) :
    find_content_box (convertRGBA img) t = none ∧
      trim_and_expand_border_to_content img p t = convertRGBA img := by
  have hnone : find_content_box (convertRGBA img) t = none := by
    rw [find_content_box_eq_fg _ _ (chOk_convertRGBA hch), fg_box_none_iff]
    intro x y hfg
    obtain ⟨hx, hy, hl⟩ := hfg
    have hx' : x < img.width := hx
    have hy' : y < img.height := hy
    have hl' : t < luma (pixDiff (getPixel img x y) (getPixel img 0 0)) := hl
    have := hunif x y hx' hy'
    omega
  exact ⟨hnone, trim_of_none hnone⟩

/-! The centered-rectangle scenario. -/

theorem getPixel_rectImage (w h m : Nat) (fg bgc : Pixel) (x y : Nat) :
    getPixel (rectImage w h m fg bgc) x y =
      if x < w + 2 * m ∧ y < h + 2 * m then
        (if m ≤ x ∧ x < m + w ∧ m ≤ y ∧ y < m + h then fg else bgc)
      else defaultPixel := by
  unfold rectImage
  exact getPixel_mkGrid PixMode.RGBA (w + 2 * m) (h + 2 * m) _ x y

theorem rect_fg_iff {w h m t : Nat} {fg bgc : Pixel} (hm : 1 ≤ m) (hw : 1 ≤ w)
    (hh : 1 ≤ h) (hsep : t < luma (pixDiff fg bgc)) :
    ∀ x y, IsFg (convertRGBA (rectImage w h m fg bgc)) t x y ↔
      (m ≤ x ∧ x < m + w ∧ m ≤ y ∧ y < m + h) := by
  have hconv : convertRGBA (rectImage w h m fg bgc) = rectImage w h m fg bgc := rfl
  have hW0 : 0 < w + 2 * m := by omega
  have hH0 : 0 < h + 2 * m := by omega
  have hwid : (rectImage w h m fg bgc).width = w + 2 * m := by
    unfold rectImage
    exact mkImg_width _ _ _ hH0
  have hhei : (rectImage w h m fg bgc).height = h + 2 * m := by
    unfold rectImage
    exact mkImg_height _ _ _ _
  have h00 : getPixel (rectImage w h m fg bgc) 0 0 = bgc := by
    rw [getPixel_rectImage, if_pos ⟨hW0, hH0⟩, if_neg (by omega)]
  intro x y
  unfold IsFg
  rw [hconv, hwid, hhei, h00, getPixel_rectImage]
  constructor
  · rintro ⟨hx, hy, hl⟩
    rw [if_pos ⟨hx, hy⟩] at hl
    by_cases hin : m ≤ x ∧ x < m + w ∧ m ≤ y ∧ y < m + h
    · exact hin
    · rw [if_neg hin, luma_pixDiff_self] at hl
      omega
  · rintro ⟨hx1, hx2, hy1, hy2⟩
    have hx : x < w + 2 * m := by omega
    have hy : y < h + 2 * m := by omega
    refine ⟨hx, hy, ?_⟩
    rw [if_pos ⟨hx, hy⟩, if_pos ⟨hx1, hx2, hy1, hy2⟩]
    exact hsep

theorem rect_box {w h m t : Nat} {fg bgc : Pixel} (hm : 1 ≤ m) (hw : 1 ≤ w)
    (hh : 1 ≤ h) (hsep : t < luma (pixDiff fg bgc))
    (hf : fg.r ≤ 255 ∧ fg.g ≤ 255 ∧ fg.b ≤ 255)
    (hb : bgc.r ≤ 255 ∧ bgc.g ≤ 255 ∧ bgc.b ≤ 255) :
    find_content_box (convertRGBA (rectImage w h m fg bgc)) t =
      some (m, m, m + w, m + h) := by
  have hch : ChOk (convertRGBA (rectImage w h m fg bgc)) := by
    apply chOk_convertRGBA
    unfold rectImage
    apply chOk_mkGrid
    intro x hx y hy
    dsimp only
    by_cases hin : m ≤ x ∧ x < m + w ∧ m ≤ y ∧ y < m + h
    · rw [if_pos hin]
      exact hf
    · rw [if_neg hin]
      exact hb
  rw [find_content_box_eq_fg _ _ hch]
  conv_rhs => rw [show m + w = (m + w - 1) + 1 by omega,
    show m + h = (m + h - 1) + 1 by omega]
  refine fg_box_eq_some ⟨m, ?_⟩ ⟨m, ?_⟩ ⟨m, ?_⟩ ⟨m, ?_⟩ ?_
  · rw [rect_fg_iff hm hw hh hsep]
    omega
  · rw [rect_fg_iff hm hw hh hsep]
    omega
  · rw [rect_fg_iff hm hw hh hsep]
    omega
  · rw [rect_fg_iff hm hw hh hsep]
    omega
  · intro x y hfg
    rw [rect_fg_iff hm hw hh hsep] at hfg
    omega

theorem trim_rect {w h m t : Nat} {fg bgc : Pixel} (p : Nat) (hm : 1 ≤ m) (hw : 1 ≤ w)
    (hh : 1 ≤ h) (hsep : t < luma (pixDiff fg bgc))
    (hf : fg.r ≤ 255 ∧ fg.g ≤ 255 ∧ fg.b ≤ 255 ∧ fg.a = 255)
    (hb : bgc.r ≤ 255 ∧ bgc.g ≤ 255 ∧ bgc.b ≤ 255 ∧ bgc.a = 255) :
    trim_and_expand_border_to_content (rectImage w h m fg bgc) p t =
      ⟨PixMode.RGB, gridOfFn (w + p * 2) (h + p * 2) (fun x y =>
        if p ≤ x ∧ x < p + w ∧ p ≤ y ∧ y < p + h then rgb255 fg else rgb255 bgc)⟩ := by
  have hH0 : 0 < h + 2 * m := by omega
  have hvalid : (rectImage w h m fg bgc).Valid ∧ AlphaFull (rectImage w h m fg bgc) := by
    unfold rectImage
    apply valid_mkGrid255 PixMode.RGBA hH0
    intro x hx y hy
    dsimp only
    by_cases hin : m ≤ x ∧ x < m + w ∧ m ≤ y ∧ y < m + h
    · rw [if_pos hin]
      exact hf
    · rw [if_neg hin]
      exact hb
  have hbox := rect_box hm hw hh hsep ⟨hf.1, hf.2.1, hf.2.2.1⟩ ⟨hb.1, hb.2.1, hb.2.2.1⟩
  obtain ⟨_, _, _, _, hchar⟩ := trim_some_char (p := p) hvalid.1 hvalid.2 hbox
  rw [hchar]
  rw [show m + w - m = w by omega, show m + h - m = h by omega]
  have h00 : getPixel (rectImage w h m fg bgc) 0 0 = bgc := by
    rw [getPixel_rectImage, if_pos ⟨by omega, hH0⟩, if_neg (by omega)]
  congr 1
  apply gridOfFn_congr
  intro x hx y hy
  by_cases hin : p ≤ x ∧ x < p + w ∧ p ≤ y ∧ y < p + h
  · rw [if_pos hin, if_pos hin]
    rw [getPixel_rectImage, if_pos ⟨by omega, by omega⟩, if_pos (by omega)]
  · rw [if_neg hin, if_neg hin, h00]

/-! The mask and the pixel-byte serialization depend only on the color
channels of the pixels, never on alpha or mode. -/

theorem getD_map {α β : Type} (f : α → β) (l : List α) (i : Nat) (d : α) :
    (l.map f).getD i (f d) = f (l.getD i d) := by
  by_cases h : i < l.length
  · rw [List.getD_eq_getElem _ _ (by simpa using h), List.getD_eq_getElem _ _ h,
      List.getElem_map]
  · rw [List.getD_eq_default _ _ (by simpa using Nat.le_of_not_lt h),
      List.getD_eq_default _ _ (Nat.le_of_not_lt h)]

theorem rgbData_getPixel (img : Img) (x y : Nat) :
    ((rgbData img).getD y []).getD x (0, 0, 0) =
      ((getPixel img x y).r, (getPixel img x y).g, (getPixel img x y).b) := by
  unfold rgbData getPixel
  have h1 : (img.pixels.map (List.map (fun p : Pixel => (p.r, p.g, p.b)))).getD y
      (List.map (fun p : Pixel => (p.r, p.g, p.b)) []) =
      List.map (fun p : Pixel => (p.r, p.g, p.b)) (img.pixels.getD y []) :=
    getD_map _ _ _ _
  rw [show ([] : List (Nat × Nat × Nat)) =
    List.map (fun p : Pixel => (p.r, p.g, p.b)) ([] : List Pixel) from rfl]
  rw [h1]
  exact getD_map (fun p : Pixel => (p.r, p.g, p.b)) _ x defaultPixel

theorem rgbData_width (img : Img) : img.width = ((rgbData img).headD []).length := by
  unfold rgbData Img.width
  cases img.pixels with
  | nil => rfl
  | cons row rows => simp

theorem rgbData_height (img : Img) : img.height = (rgbData img).length := by
  unfold rgbData Img.height
  simp

theorem luma_pixDiff_rgb_eq {p p' q q' : Pixel}
    (hp : (p.r, p.g, p.b) = (p'.r, p'.g, p'.b))
    (hq : (q.r, q.g, q.b) = (q'.r, q'.g, q'.b)) :
    luma (pixDiff p q) = luma (pixDiff p' q') := by
  simp only [Prod.mk.injEq] at hp hq
  unfold luma pixDiff absdiff
  rw [hp.1, hp.2.1, hp.2.2, hq.1, hq.2.1, hq.2.2]

theorem contentMask_grid (img : Img) (t : Nat) :
    contentMask img t = gridOfFn img.width img.height (fun x y =>
      (lut t).getD (luma (pixDiff (getPixel img x y) (getPixel img 0 0))) 0) := by
  rw [show contentMask img t = point (convertL (difference img
    (imageNew img.width img.height (getPixel img 0 0)))) (lut t) from rfl]
  have hd : difference img (imageNew img.width img.height (getPixel img 0 0)) =
      ⟨PixMode.RGBA, gridOfFn img.width img.height
        (fun x y => pixDiff (getPixel img x y) (getPixel img 0 0))⟩ := by
    unfold difference
    congr 1
    apply gridOfFn_congr
    intro x hx y hy
    show pixDiff (getPixel img x y)
        (getPixel (imageNew img.width img.height (getPixel img 0 0)) x y) =
      pixDiff (getPixel img x y) (getPixel img 0 0)
    rw [getPixel_imageNew, if_pos ⟨hx, hy⟩]
  rw [hd]
  unfold convertL point
  rw [show (Img.mk PixMode.RGBA (gridOfFn img.width img.height
    (fun x y => pixDiff (getPixel img x y) (getPixel img 0 0)))).pixels =
    gridOfFn img.width img.height
    (fun x y => pixDiff (getPixel img x y) (getPixel img 0 0)) from rfl]
  rw [gridOfFn_map, gridOfFn_map]

theorem contentMask_rgb_invariant {i j : Img} (t : Nat) (hij : rgbData i = rgbData j) :
    contentMask i t = contentMask j t := by
  have hw : i.width = j.width := by
    rw [rgbData_width, rgbData_width, hij]
  have hh : i.height = j.height := by
    rw [rgbData_height, rgbData_height, hij]
  rw [contentMask_grid, contentMask_grid, hw, hh]
  apply gridOfFn_congr
  intro x hx y hy
  have h1 : ((getPixel i x y).r, (getPixel i x y).g, (getPixel i x y).b) =
      ((getPixel j x y).r, (getPixel j x y).g, (getPixel j x y).b) := by
    rw [← rgbData_getPixel, ← rgbData_getPixel, hij]
  have h0 : ((getPixel i 0 0).r, (getPixel i 0 0).g, (getPixel i 0 0).b) =
      ((getPixel j 0 0).r, (getPixel j 0 0).g, (getPixel j 0 0).b) := by
    rw [← rgbData_getPixel, ← rgbData_getPixel, hij]
  rw [luma_pixDiff_rgb_eq h1 h0]

theorem toBytes_convertRGB (img : Img) :
    toBytes (convertRGB img) = ((rgbData img).map (fun row =>
      (row.map (fun q => [q.1, q.2.1, q.2.2])).flatten)).flatten := by
  unfold toBytes convertRGB rgbData
  simp only [List.map_map]
  apply congrArg List.flatten
  apply List.map_congr_left
  intro row hrow
  simp only [Function.comp, List.map_map]
  apply congrArg List.flatten
  apply List.map_congr_left
  intro q hq
  rfl

/-! Claim theorems. -/

/-- Claim C1, amended: the border normalizer is idempotent on valid fully
opaque images whenever the padding is at least 1 — applying it twice is
pixel-identical to applying it once. (As stated over all paddings and
images the claim fails: see the counterexample with padding 0.) -/
theorem C1_amended_idempotent (img : Img) (p t : Nat) (hv : img.Valid)
    (ha : AlphaFull img) (hp : 1 ≤ p) :
    trim_and_expand_border_to_content (trim_and_expand_border_to_content img p t) p t =
      trim_and_expand_border_to_content img p t :=
  trim_idem img p t hv ha hp

/-- Claim C1, counterexample: with padding 0 the normalizer is not
idempotent. On the white-black-white-black-white strip the first pass
crops to the three pixels between the black ones; the second pass then
samples its background from a black corner pixel and crops differently. -/
theorem C1_counterexample :
    trim_and_expand_border_to_content
        (trim_and_expand_border_to_content stripImage 0 30) 0 30 ≠
      trim_and_expand_border_to_content stripImage 0 30 := by decide

/-- Witness for amended claim C1: the 3×3 dot image with padding 1 and
tolerance 30. -/
theorem C1_amended_idempotent_witness :
    dotImage.Valid ∧ AlphaFull dotImage ∧ 1 ≤ 1 ∧
      trim_and_expand_border_to_content
          (trim_and_expand_border_to_content dotImage 1 30) 1 30 =
        trim_and_expand_border_to_content dotImage 1 30 :=
  ⟨by decide, by decide, by decide,
    C1_amended_idempotent dotImage 1 30 (by decide) (by decide) (by decide)⟩

/-- Claim C2: when every pixel of the image is within tolerance of the
color sampled at (0,0), the content-box computation returns none and the
border normalizer passes the image through: the result has exactly the
input's pixel grid, and for an RGBA-mode input it is the input itself. -/
theorem C2_uniform_unchanged (img : Img) (p t : Nat) (hv : img.Valid)
    (hunif : ∀ x y, x < img.width → y < img.height →
      luma (pixDiff (getPixel img x y) (getPixel img 0 0)) ≤ t) :
    find_content_box (convertRGBA img) t = none ∧
      trim_and_expand_border_to_content img p t = convertRGBA img ∧
      (trim_and_expand_border_to_content img p t).pixels = img.pixels ∧
      (img.mode = PixMode.RGBA → trim_and_expand_border_to_content img p t = img) := by
  obtain ⟨h1, h2⟩ := trim_uniform p (valid_chOk hv) hunif
  refine ⟨h1, h2, by rw [h2]; rfl, ?_⟩
  intro hmode
  rw [h2]
  obtain ⟨mo, px⟩ := img
  have hmo : mo = PixMode.RGBA := hmode
  subst hmo
  rfl

/-- Witness for claim C2: the uniform 2×2 white image at tolerance 0. -/
theorem C2_uniform_unchanged_witness :
    uniformImage.Valid ∧
      find_content_box (convertRGBA uniformImage) 0 = none ∧
      trim_and_expand_border_to_content uniformImage 10 0 = uniformImage := by
  have h := C2_uniform_unchanged uniformImage 10 0 (by decide)
    (by
      intro x y hx hy
      have hx' : x < 2 := hx
      have hy' : y < 2 := hy
      interval_cases x <;> interval_cases y <;> decide)
  exact ⟨by decide, h.1, h.2.2.2 rfl⟩

/-- Claim C3, amended: for a single centered w×h foreground rectangle
with background margin m ≥ 1 (the claim's m ≥ 0 fails at m = 0, where the
image is uniformly the foreground color and passes through unchanged) and
any tolerance below the foreground/background luma separation, the
normalizer returns an image of size (w + 2p, h + 2p) with the rectangle
placed at offset (p, p) on a background-colored canvas. -/
theorem C3_amended_rect (w h m p t : Nat) (fg bgc : Pixel) (hm : 1 ≤ m) (hw : 1 ≤ w)
    (hh : 1 ≤ h) (hsep : t < luma (pixDiff fg bgc))
    (hf : fg.r ≤ 255 ∧ fg.g ≤ 255 ∧ fg.b ≤ 255 ∧ fg.a = 255)
    (hb : bgc.r ≤ 255 ∧ bgc.g ≤ 255 ∧ bgc.b ≤ 255 ∧ bgc.a = 255) :
    (trim_and_expand_border_to_content (rectImage w h m fg bgc) p t).width = w + 2 * p ∧
    (trim_and_expand_border_to_content (rectImage w h m fg bgc) p t).height = h + 2 * p ∧
    trim_and_expand_border_to_content (rectImage w h m fg bgc) p t =
      ⟨PixMode.RGB, gridOfFn (w + p * 2) (h + p * 2) (fun x y =>
        if p ≤ x ∧ x < p + w ∧ p ≤ y ∧ y < p + h then rgb255 fg else rgb255 bgc)⟩ := by
  have hchar := trim_rect p hm hw hh hsep hf hb
  refine ⟨?_, ?_, hchar⟩
  · rw [hchar, mkImg_width _ _ _ (by omega)]
    omega
  · rw [hchar, mkImg_height]
    omega

/-- Claim C3, counterexample: at margin m = 0 (a 1×1 all-foreground image)
the output does not have size (w + 2p, h + 2p): it is returned unchanged
at size 1×1 instead of 3×3. -/
theorem C3_counterexample :
    (trim_and_expand_border_to_content (rectImage 1 1 0 blackPix whitePix) 1 30).width ≠
      1 + 2 * 1 := by decide

/-- Witness for amended claim C3: the spec's 40×40 scenario — a centered
10×10 square with margin 15, tolerance 30, padding 5 gives a 20×20 image
with the square at offset (5, 5). -/
theorem C3_amended_rect_witness :
    (trim_and_expand_border_to_content (rectImage 10 10 15 blackPix whitePix) 5 30).width =
        10 + 2 * 5 ∧
    (trim_and_expand_border_to_content (rectImage 10 10 15 blackPix whitePix) 5 30).height =
        10 + 2 * 5 ∧
    trim_and_expand_border_to_content (rectImage 10 10 15 blackPix whitePix) 5 30 =
      ⟨PixMode.RGB, gridOfFn (10 + 5 * 2) (10 + 5 * 2) (fun x y =>
        if 5 ≤ x ∧ x < 5 + 10 ∧ 5 ≤ y ∧ y < 5 + 10 then rgb255 blackPix
        else rgb255 whitePix)⟩ :=
  C3_amended_rect 10 10 15 5 30 blackPix whitePix (by decide) (by decide) (by decide)
    (by decide) (by decide) (by decide)

/-- Claim C4: the content-box computation samples its background reference
at (0,0) and classifies a pixel as foreground exactly when the luma of the
per-channel absolute difference from that reference strictly exceeds the
tolerance; a pixel whose luma equals the tolerance is background, and the
box is the bounding box of exactly the so-classified pixels. -/
theorem C4_classification (img : Img) (t : Nat) (hv : img.Valid) :
    contentMask img t = fgIndicator img t ∧
    (∀ x y, x < img.width → y < img.height →
      (((contentMask img t).getD y []).getD x 0 ≠ 0 ↔
        t < luma (pixDiff (getPixel img x y) (getPixel img 0 0)))) ∧
    (∀ x y, x < img.width → y < img.height →
      luma (pixDiff (getPixel img x y) (getPixel img 0 0)) = t →
      ((contentMask img t).getD y []).getD x 0 = 0) ∧
    find_content_box img t = getbbox (fgIndicator img t) := by
  have hch := valid_chOk hv
  have h1 := contentMask_eq_fgIndicator img t hch
  have hmem : ∀ x y, x < img.width → y < img.height →
      ((fgIndicator img t).getD y []).getD x 0 =
        if t < luma (pixDiff (getPixel img x y) (getPixel img 0 0)) then 255 else 0 := by
    intro x y hx hy
    unfold fgIndicator
    exact gridOfFn_getD _ _ hx hy
  refine ⟨h1, ?_, ?_, find_content_box_eq_fg img t hch⟩
  · intro x y hx hy
    rw [h1, hmem x y hx hy]
    by_cases hc : t < luma (pixDiff (getPixel img x y) (getPixel img 0 0))
    · simp [hc]
    · simp [hc]
  · intro x y hx hy heq
    rw [h1, hmem x y hx hy, if_neg (by omega)]

/-- Witness for claim C4 at the 3×3 dot image with tolerance 30. -/
theorem C4_classification_witness :
    dotImage.Valid ∧ contentMask dotImage 30 = fgIndicator dotImage 30 :=
  ⟨by decide, (C4_classification dotImage 30 (by decide)).1⟩

/-- Claim C5: the fingerprint is a pure function (trivially reflexive),
and it factors through the canonical opaque RGB pixel data: any two
images carrying the same color channels — whatever their alpha values or
mode — have equal fingerprints. -/
theorem C5_fingerprint_canonical :
    (∀ img : Img, get_image_hash img = get_image_hash img) ∧
    (∀ i j : Img, rgbData i = rgbData j → get_image_hash i = get_image_hash j) := by
  refine ⟨fun _ => rfl, ?_⟩
  intro i j hij
  unfold get_image_hash
  rw [toBytes_convertRGB, toBytes_convertRGB, hij]

/-- Witness for claim C5: a 1×1 RGB image and the same pixel carried in
RGBA mode with partial alpha fingerprint identically. -/
theorem C5_fingerprint_canonical_witness :
    rgbData rgbImgA = rgbData rgbaImgA ∧
      get_image_hash rgbImgA = get_image_hash rgbaImgA :=
  ⟨by decide, C5_fingerprint_canonical.2 rgbImgA rgbaImgA (by decide)⟩

/-- Claim C6, amended: an iteration whose clipboard image fingerprints
equal to `last_image_hash` performs no clipboard write and leaves the
state unchanged; when a new image arrives whose normalization changes
its fingerprint, the iteration writes exactly the processed image, and
the following poll — which then sees the written image — is a no-op, so
exactly one write happens across the two polls; and when a new image is
already canonical (normalization leaves its fingerprint unchanged) the
iteration records its fingerprint without writing, so at most one write
ever occurs. (The unamended claim's unconditional "exactly one write"
fails in that last case — see the counterexample.) -/
theorem C6_amended_dedup (p t : Nat) (A : Img) (last : Option Nat) :
    (last = some (get_image_hash A) →
      mainIteration p t (Clip.image A) last FailAt.ok = ⟨last, none, false⟩) ∧
    (last ≠ some (get_image_hash A) →
      get_image_hash (trim_and_expand_border_to_content A p t) ≠ get_image_hash A →
      mainIteration p t (Clip.image A) last FailAt.ok =
        ⟨some (get_image_hash (trim_and_expand_border_to_content A p t)),
          some (trim_and_expand_border_to_content A p t), false⟩ ∧
      mainIteration p t (Clip.image (trim_and_expand_border_to_content A p t))
          (some (get_image_hash (trim_and_expand_border_to_content A p t))) FailAt.ok =
        ⟨some (get_image_hash (trim_and_expand_border_to_content A p t)), none, false⟩) ∧
    (last ≠ some (get_image_hash A) →
      get_image_hash (trim_and_expand_border_to_content A p t) = get_image_hash A →
      mainIteration p t (Clip.image A) last FailAt.ok =
        ⟨some (get_image_hash A), none, false⟩) := by
  refine ⟨?_, ?_, ?_⟩
  · intro hlast
    subst hlast
    simp [mainIteration]
  · intro hne hchange
    constructor
    · simp [mainIteration, Ne.symm hne, hchange]
    · simp [mainIteration]
  · intro hne heq
    simp [mainIteration, Ne.symm hne, heq]

/-- Claim C6, counterexample: a fresh uniform 1×1 white image is already
canonical, so both its first poll and the unchanged second poll perform
no clipboard write at all — not exactly one. -/
theorem C6_counterexample :
    (mainIteration 10 30 (Clip.image onePix) none FailAt.ok).written = none ∧
    (mainIteration 10 30 (Clip.image onePix)
      (mainIteration 10 30 (Clip.image onePix) none FailAt.ok).last
      FailAt.ok).written = none := by decide

/-- Witness for amended claim C6: the 3×3 dot image with padding 0 is not
canonical, so the two-poll scenario performs exactly one write. -/
theorem C6_amended_dedup_witness :
    ((none : Option Nat) ≠ some (get_image_hash dotImage)) ∧
      get_image_hash (trim_and_expand_border_to_content dotImage 0 30) ≠
        get_image_hash dotImage ∧
      mainIteration 0 30 (Clip.image dotImage) none FailAt.ok =
        ⟨some (get_image_hash (trim_and_expand_border_to_content dotImage 0 30)),
          some (trim_and_expand_border_to_content dotImage 0 30), false⟩ :=
  ⟨by decide, by decide,
    ((C6_amended_dedup 0 30 dotImage none).2.1 (by decide) (by decide)).1⟩

/-- Claim C7: an iteration that finds empty text on the clipboard resets
`last_image_hash` to empty; so after image A is processed and written,
then the clipboard is cleared to empty text, a renewed copy of the same A
is treated as new and written again on the third poll. -/
theorem C7_empty_text_reset (p t : Nat) (A : Img) (l0 : Option Nat)
    (hne : l0 ≠ some (get_image_hash A))
    (hchange : get_image_hash (trim_and_expand_border_to_content A p t) ≠
      get_image_hash A) :
    (∀ last : Option Nat,
      mainIteration p t (Clip.text "") last FailAt.ok = ⟨none, none, false⟩) ∧
    (mainIteration p t (Clip.image A) l0 FailAt.ok).written =
      some (trim_and_expand_border_to_content A p t) ∧
    (mainIteration p t (Clip.text "")
      (mainIteration p t (Clip.image A) l0 FailAt.ok).last FailAt.ok).last = none ∧
    (mainIteration p t (Clip.image A) none FailAt.ok).written =
      some (trim_and_expand_border_to_content A p t) := by
  have hstep : ∀ last : Option Nat,
      mainIteration p t (Clip.text "") last FailAt.ok = ⟨none, none, false⟩ := by
    intro last
    simp [mainIteration]
  refine ⟨hstep, ?_, by rw [hstep], ?_⟩
  · simp [mainIteration, Ne.symm hne, hchange]
  · simp [mainIteration, hchange]

/-- Witness for claim C7: the 3×3 dot image with padding 0, starting from
an empty `last_image_hash`. -/
theorem C7_empty_text_reset_witness :
    ((none : Option Nat) ≠ some (get_image_hash dotImage)) ∧
      get_image_hash (trim_and_expand_border_to_content dotImage 0 30) ≠
        get_image_hash dotImage ∧
      (mainIteration 0 30 (Clip.image dotImage) none FailAt.ok).written =
        some (trim_and_expand_border_to_content dotImage 0 30) ∧
      (mainIteration 0 30 (Clip.text "")
        (mainIteration 0 30 (Clip.image dotImage) none FailAt.ok).last
        FailAt.ok).last = none :=
  ⟨by decide, by decide,
    (C7_empty_text_reset 0 30 dotImage none (by decide) (by decide)).2.1,
    (C7_empty_text_reset 0 30 dotImage none (by decide) (by decide)).2.2.1⟩

/-- Claim C8, amended: the clipboard write always closes the clipboard
again, and its outcome is one of exactly three: content untouched (for a
failure at encoding, opening, or emptying), content cleared (for a
failure in SetClipboardData, which runs after EmptyClipboard has already
emptied the clipboard — so the write is NOT all-or-nothing as claimed:
see the counterexample), or content fully replaced by the DIB payload on
success. A partially overwritten payload is impossible. -/
theorem C8_amended_write_outcomes (img : Img) (f : SendFail) (c0 : Option (List Nat)) :
    (send_image_to_clipboard img f c0).closed = true ∧
    ((f = SendFail.encode ∨ f = SendFail.openClip ∨ f = SendFail.emptyClip) →
      send_image_to_clipboard img f c0 = ⟨c0, false, true⟩) ∧
    (f = SendFail.setData → send_image_to_clipboard img f c0 = ⟨none, false, true⟩) ∧
    (f = SendFail.ok →
      send_image_to_clipboard img f c0 = ⟨some (dibData img), true, true⟩) ∧
    ((send_image_to_clipboard img f c0).content = c0 ∨
      (send_image_to_clipboard img f c0).content = none ∨
      (send_image_to_clipboard img f c0).content = some (dibData img)) := by
  cases f <;> simp [send_image_to_clipboard]

/-- Claim C8, counterexample: when SetClipboardData fails, the image that
was previously on the clipboard is not left untouched — the clipboard is
left cleared, because EmptyClipboard already ran inside the try block. -/
theorem C8_counterexample :
    (send_image_to_clipboard onePix SendFail.setData (some [1, 2, 3])).content ≠
      some [1, 2, 3] := by decide

/-- Witness for amended claim C8 at a concrete failing write. -/
theorem C8_amended_write_outcomes_witness :
    (send_image_to_clipboard onePix SendFail.setData (some [1, 2, 3])).closed = true ∧
      send_image_to_clipboard onePix SendFail.setData (some [1, 2, 3]) =
        ⟨none, false, true⟩ :=
  ⟨(C8_amended_write_outcomes onePix SendFail.setData (some [1, 2, 3])).1,
    (C8_amended_write_outcomes onePix SendFail.setData (some [1, 2, 3])).2.2.1 rfl⟩

/-- Claim C9: the alpha channel never contributes to foreground
classification: the content-box computation is invariant under any change
of the alpha data (or mode) that keeps the color channels, and an
in-range pixel whose color channels are within tolerance of the
background sample is classified background (mask value 0) no matter what
the alpha values are. -/
theorem C9_alpha_never_contributes :
    (∀ i j : Img, ∀ t : Nat, rgbData i = rgbData j →
      find_content_box i t = find_content_box j t) ∧
    (∀ (img : Img) (t x y : Nat), img.Valid → x < img.width → y < img.height →
      luma (pixDiff (getPixel img x y) (getPixel img 0 0)) ≤ t →
      ((contentMask img t).getD y []).getD x 0 = 0) := by
  constructor
  · intro i j t hij
    unfold find_content_box
    rw [contentMask_rgb_invariant t hij]
  · intro img t x y hv hx hy hle
    rw [contentMask_eq_fgIndicator img t (valid_chOk hv)]
    unfold fgIndicator
    rw [gridOfFn_getD _ _ hx hy, if_neg (by omega)]

/-- Witness for claim C9: two 1×1 images with the same color but alphas
77 and 0 get the same content box, and a background-colored pixel of the
dot image is masked 0. -/
theorem C9_alpha_never_contributes_witness :
    rgbData rgbaImgA = rgbData rgbaImgB ∧
      find_content_box rgbaImgA 30 = find_content_box rgbaImgB 30 ∧
      ((contentMask dotImage 30).getD 0 []).getD 0 0 = 0 :=
  ⟨by decide, C9_alpha_never_contributes.1 rgbaImgA rgbaImgB 30 (by decide),
    C9_alpha_never_contributes.2 dotImage 30 0 0 (by decide) (by decide) (by decide)
      (by decide)⟩

/-- Claim C10: whenever an iteration of the monitor loop raises an
exception — at the clipboard read, either fingerprint computation, the
normalization, or the clipboard write — `last_image_hash` keeps exactly
the value it had when the iteration started. -/
theorem C10_exception_preserves_fingerprint (p t : Nat) (clip : Clip)
    (last : Option Nat) (f : FailAt)
    (h : (mainIteration p t clip last f).raised = true) :
    (mainIteration p t clip last f).last = last := by
  cases clip <;> simp only [mainIteration] at h ⊢ <;> split_ifs at h ⊢ <;> simp_all

/-- Witness for claim C10: a failing clipboard write on the dot image
leaves the empty `last_image_hash` empty. -/
theorem C10_exception_preserves_fingerprint_witness :
    (mainIteration 0 30 (Clip.image dotImage) none FailAt.sendWrite).raised = true ∧
      (mainIteration 0 30 (Clip.image dotImage) none FailAt.sendWrite).last = none :=
  ⟨by decide,
    C10_exception_preserves_fingerprint 0 30 (Clip.image dotImage) none
      FailAt.sendWrite (by decide)⟩

end ImageBorderCropper
